import Mathlib

/-
Verification of the Simon Says memory game sketch
(src/src/SimonGame_Final_JuneTwentyFive.ino).

The sketch is shallowly embedded: the global game state becomes an explicit
structure, the polled button hardware becomes a time-indexed trace of
contact states, the EEPROM high-score byte becomes an explicit Nat, and the
light/tone side effects become an explicit event list.  Byte arithmetic is
modelled over Nat/Int with explicit mod 256 where C overflow matters.
-/

namespace SimonGame

/-- The game modes, from the enum GameMode { CLASSIC, SPEED, REVERSE, STEALTH }. -/
inductive GameMode where
  | CLASSIC
  | SPEED
  | REVERSE
  | STEALTH
deriving DecidableEq

/-- MAX_GAME_LENGTH = 100, the maximum number of levels. -/
def MAX_GAME_LENGTH : Nat := 100

/-- The mutable globals of the sketch: gameSequence (the byte array, modelled
as a total function from index to stored value), Level, lives, isMuted and
currentMode. -/
structure GameState where
  gameSequence : Nat → Nat
  Level : Nat
  lives : Nat
  isMuted : Bool
  currentMode : GameMode

/-- The logical sequence held by the store: the first Level entries of
gameSequence, in order (the spec invariant is length == Level). -/
def seqList (s : GameState) : List Nat :=
  (List.range s.Level).map s.gameSequence

/-- The sequence-extension step at the top of loop() (lines 378-380):
gameSequence[Level] = random(0,4); Level++;
if (Level >= MAX_GAME_LENGTH) Level = MAX_GAME_LENGTH - 1;
The random draw is passed in as r. -/
def extendStep (s : GameState) (r : Nat) : GameState :=
  let seq1 : Nat → Nat := fun j => if j = s.Level then r else s.gameSequence j
  let lvl1 := s.Level + 1
  { s with gameSequence := seq1,
           Level := if MAX_GAME_LENGTH ≤ lvl1 then MAX_GAME_LENGTH - 1 else lvl1 }

/-- Decrement of the byte variable lives (the lives-- in checkUserSequence):
uint8 arithmetic, so 0 wraps to 255. -/
def decLives (l : Nat) : Nat := (l + 255) % 256

/-- The expected colour index compared at step i of checkUserSequence
(line 207):
(currentMode == REVERSE) ? gameSequence[Level - 1 - i] : gameSequence[i]. -/
def expectedAt (mode : GameMode) (seq : Nat → Nat) (level i : Nat) : Nat :=
  if mode = GameMode.REVERSE then seq (level - 1 - i) else seq i

/-- The failure test at step i of checkUserSequence (line 210):
actual == 255 || expected != actual, where actual is the value the button
reader returned for step i (abstracted as inputs i). -/
def stepFails (mode : GameMode) (seq : Nat → Nat) (level : Nat)
    (inputs : Nat → Nat) (i : Nat) : Bool :=
  inputs i == 255 || expectedAt mode seq level i != inputs i

/-- The verification loop of checkUserSequence (lines 206-219), recursing on
the number of remaining steps: returns some i at the first failing step i
(where the C code does lives--; return false), none when every step of the
round passed.  The echo cue played on each accepted step touches no state. -/
def checkLoop (mode : GameMode) (seq : Nat → Nat) (level : Nat)
    (inputs : Nat → Nat) : Nat → Nat → Option Nat
  | _, 0 => none
  | i, Nat.succ rem =>
    if stepFails mode seq level inputs i then some i
    else checkLoop mode seq level inputs (i + 1) rem

/-- Result of one call to checkUserSequence: the returned bool, the state
after the call, and the number of button reads the call consumed (the C
function performs one read per loop iteration and returns at the first
failure, so a failure at step i consumes exactly i+1 reads). -/
structure CheckResult where
  ok : Bool
  state : GameState
  readsUsed : Nat

/-- checkUserSequence (lines 205-221).  The per-step reader results
(readButtonsWithCountdown in SPEED mode, readButtonsDebounced otherwise)
are abstracted as the function inputs from step index to returned byte.
The only global the function writes is lives (decremented on failure). -/
def checkUserSequence (s : GameState) (inputs : Nat → Nat) : CheckResult :=
  match checkLoop s.currentMode s.gameSequence s.Level inputs 0 s.Level with
  | some i => ⟨false, { s with lives := decLives s.lives }, i + 1⟩
  | none => ⟨true, s, s.Level⟩

/-- updateHighScore (lines 223-230) acting on the EEPROM byte: returns
(whether EEPROM.write executed, the stored byte afterwards). -/
def updateHighScore (score stored : Nat) : Bool × Nat :=
  if stored = 255 ∨ score > stored then (true, score) else (false, stored)

/-- One observable emission event: a sequence-step cue (which LED was lit,
which tone index sounded, duration in ms) or a pacing pause. -/
inductive Ev where
  | step (light : Option Nat) (tn : Option Nat) (dur : Nat)
  | pause (dur : Int)
deriving DecidableEq

/-- Duration in milliseconds of an event. -/
def evDur : Ev → Int
  | .step _ _ d => (d : Int)
  | .pause d => d

/-- Whether an event is a sequence-step cue (rather than a pacing pause). -/
def isStepEv : Ev → Bool
  | .step _ _ _ => true
  | .pause _ => false

/-- The LED emission of an event. -/
def evLight : Ev → Option Nat
  | .step l _ _ => l
  | .pause _ => none

/-- The tone emission of an event. -/
def evTone : Ev → Option Nat
  | .step _ t _ => t
  | .pause _ => none

/-- lightLedAndPlayTone (lines 100-106): LED i on, tone only when not muted,
delay(300), LED off. -/
def lightLedAndPlayTone (muted : Bool) (i : Nat) : Ev :=
  Ev.step (some i) (if muted then none else some i) 300

/-- playToneOnly (lines 108-112): tone only when not muted, delay(300). -/
def playToneOnly (muted : Bool) (i : Nat) : Ev :=
  Ev.step none (if muted then none else some i) 300

/-- The per-step body of playSequence (lines 142-153): in STEALTH mode,
tone-only for 300 ms when not muted and a bare delay(300) when muted;
in every other mode the call to lightLedAndPlayTone. -/
def playStepEv (mode : GameMode) (muted : Bool) (c : Nat) : Ev :=
  if mode = GameMode.STEALTH then
    if muted = false then Ev.step none (some c) 300 else Ev.step none none 300
  else lightLedAndPlayTone muted c

/-- The pacing gap of playSequence (line 138):
int speed = max(100, 400 - Level * 10), in C int arithmetic. -/
def pacingGap (L : Nat) : Int := max 100 (400 - (L : Int) * 10)

/-- The playback loop of playSequence (lines 139-156), recursing on the
number of remaining steps: each iteration emits the step cue for
gameSequence[i] followed by delay(speed). -/
def playSeqFrom (mode : GameMode) (muted : Bool) (seq : Nat → Nat) (g : Int) :
    Nat → Nat → List Ev
  | _, 0 => []
  | i, Nat.succ rem =>
    playStepEv mode muted (seq i) :: Ev.pause g ::
      playSeqFrom mode muted seq g (i + 1) rem

/-- playSequence (lines 137-157): the emitted event trace. -/
def playSequence (s : GameState) : List Ev :=
  playSeqFrom s.currentMode s.isMuted s.gameSequence (pacingGap s.Level) 0 s.Level

/-
The button readers.  The hardware is a time-indexed trace
btn : Nat → Nat → Bool, where btn t j is true when digitalRead(buttonPins[j])
at millisecond t reads LOW (contact closed; the pins are INPUT_PULLUP, so
pressed = LOW).  Polls that cost no delay() advance time by 1 ms (the poll
granularity of the tight loops); delay(k) advances time by k.  The unbounded
while loops are given fuel; exhausting the fuel yields none.
-/

/-- Outcome of one pass of the inner for loop over the four buttons:
a registered press (button index, time the reader returns, i.e. the time the
release wait ended), fuel exhaustion inside the release wait, or completion
of the pass at the given time. -/
inductive ScanOut where
  | found (i tr : Nat)
  | stuck
  | pass (t : Nat)
deriving DecidableEq

/-- The release wait, while (digitalRead(buttonPins[i]) == LOW);
(line 166): polls once per ms until the contact reads open, returning the
time of the first open poll. -/
def awaitRelease (btn : Nat → Nat → Bool) (i : Nat) : Nat → Nat → Option Nat
  | 0, _ => none
  | Nat.succ fuel, t => if btn t i then awaitRelease btn i fuel (t + 1) else some t

/-- One pass of for (byte i = 0; i < 4; i++) { ... } (lines 162-170 and
190-198): with rem buttons left the current index is 4 - rem.  A closed
contact triggers delay(20) and a re-poll; if still closed, the release is
awaited and the press registers; if open again, the pass continues with the
next button at the post-delay time. -/
def scanPass (btn : Nat → Nat → Bool) (relFuel : Nat) : Nat → Nat → ScanOut
  | 0, t => .pass t
  | Nat.succ rem, t =>
    let i := 4 - Nat.succ rem
    if btn t i then
      if btn (t + 20) i then
        match awaitRelease btn i relFuel (t + 20) with
        | some tr => .found i tr
        | none => .stuck
      else scanPass btn relFuel rem (t + 20)
    else scanPass btn relFuel rem t

/-- readButtonsDebounced (lines 160-173): the unbounded while (true) loop,
scanning the four buttons then delay(1).  Returns the registered button
index together with the time the call returns, or none when the fuel runs
out before a press registers. -/
def readButtonsDebounced (btn : Nat → Nat → Bool) (relFuel : Nat) :
    Nat → Nat → Option (Nat × Nat)
  | 0, _ => none
  | Nat.succ fuel, t =>
    match scanPass btn relFuel 4 t with
    | .found i tr => some (i, tr)
    | .stuck => none
    | .pass u => readButtonsDebounced btn relFuel fuel (u + 1)

/-- The while (millis() - start < countdownTime) loop of
readButtonsWithCountdown (lines 178-200): the loop condition is checked at
the current time t against the start time t0; the body runs the same
four-button debounce pass and then delay(10); when the deadline has elapsed
the function returns 255 (line 201).  The LCD countdown updates cost no
delay() and are not modelled. -/
def readCountdownLoop (btn : Nat → Nat → Bool)
    (relFuel countdownTime t0 : Nat) : Nat → Nat → Option (Nat × Nat)
  | 0, _ => none
  | Nat.succ fuel, t =>
    if t - t0 < countdownTime then
      match scanPass btn relFuel 4 t with
      | .found i tr => some (i, tr)
      | .stuck => none
      | .pass u => readCountdownLoop btn relFuel countdownTime t0 fuel (u + 10)
    else some (255, t)

/-- readButtonsWithCountdown (lines 175-202), entered at time t0. -/
def readButtonsWithCountdown (btn : Nat → Nat → Bool)
    (relFuel fuel t0 countdownTime : Nat) : Option (Nat × Nat) :=
  readCountdownLoop btn relFuel countdownTime t0 fuel t0

/-- A single contact closure on button i, closed exactly during [t1, t2)
and open at every other time; every other button stays open. -/
def singleClosure (i t1 t2 : Nat) : Nat → Nat → Bool :=
  fun t j => decide (j = i ∧ t1 ≤ t ∧ t < t2)

/-
The main loop and game over.
-/

/-- The whole-system state: the game globals plus the EEPROM byte at
highScoreAddress. -/
structure SysState where
  game : GameState
  stored : Nat

/-- The observable outcome of showGameOver (lines 234-275): the score the
LCD printed (Level - 1 in C int arithmetic, so an Int), the EEPROM byte
after updateHighScore(Level - 1), and the high score the LCD printed
afterwards (EEPROM.read after the update). -/
structure GameOverResult where
  displayedScore : Int
  storedAfter : Nat
  displayedHigh : Nat
deriving DecidableEq

/-- showGameOver (lines 234-275): prints Level - 1, calls
updateHighScore(Level - 1) (the argument is a byte, hence the int value
Level - 1 reduced mod 256), re-reads the EEPROM byte and prints it, then
enters while (true); -- the halt is modelled by LoopResult.halted being
absorbing under runStep. -/
def showGameOver (level stored : Nat) : GameOverResult :=
  let scoreByte : Nat := (((level : Int) - 1) % 256).toNat
  let stored1 := (updateHighScore scoreByte stored).2
  { displayedScore := (level : Int) - 1
    storedAfter := stored1
    displayedHigh := stored1 }

/-- Result of one iteration of loop(): either the process reached the
terminal while (true); inside showGameOver, or it continues with a next
system state. -/
inductive LoopResult where
  | halted (g : GameOverResult) (stored : Nat)
  | next (s : SysState)

/-- One iteration of loop() (lines 375-413): if lives == 0, showGameOver
runs and the process halts.  Otherwise the sequence is extended with the
fresh random draw r (lines 378-380), playSequence replays it (an emission
with no state effect), and checkUserSequence consumes the reader results
inputs; the LCD/jingle feedback after the check touches no modelled
state. -/
def loopStep (sys : SysState) (r : Nat) (inputs : Nat → Nat) : LoopResult :=
  if sys.game.lives = 0 then
    let g := showGameOver sys.game.Level sys.stored
    .halted g g.storedAfter
  else
    let s1 := extendStep sys.game r
    let res := checkUserSequence s1 inputs
    .next { game := res.state, stored := sys.stored }

/-- One step of the whole process: a halted process ignores every further
random draw and every further input (the while (true); of showGameOver),
a running process executes loopStep. -/
def runStep : LoopResult → Nat × (Nat → Nat) → LoopResult
  | .halted g st, _ => .halted g st
  | .next s, m => loopStep s m.1 m.2

/-- Iterated runStep over a list of (random draw, reader results) pairs. -/
def runAll (p : LoopResult) (ms : List (Nat × (Nat → Nat))) : LoopResult :=
  ms.foldl runStep p

/-
Concrete fixtures used by the witness theorems.
-/

/-- A Reverse-mode state at level 2 with sequence [3, 1]. -/
def sRev : GameState := ⟨fun j => [3, 1].getD j 0, 2, 3, false, GameMode.REVERSE⟩

/-- Reader results [1, 3]: the sequence [3, 1] replayed back-to-front. -/
def insRev : Nat → Nat := fun j => [1, 3].getD j 0

/-- A Classic-mode state at level 3 with sequence [1, 0, 2]. -/
def sClassic3 : GameState := ⟨fun j => [1, 0, 2].getD j 0, 3, 3, false, GameMode.CLASSIC⟩

/-- Reader results [1, 2, 2]: wrong at step 1 (expected 0). -/
def insWrong : Nat → Nat := fun j => [1, 2, 2].getD j 0

/-- A Speed-mode state at level 2 with sequence [1, 0]. -/
def sSpeed : GameState := ⟨fun j => [1, 0].getD j 0, 2, 3, false, GameMode.SPEED⟩

/-- Reader results for sSpeed: correct at step 0, timeout at step 1. -/
def insTimeout : Nat → Nat := fun j => if j = 0 then 1 else 255

/-- Reader results for sSpeed: correct at step 0, wrong answer 3 at step 1. -/
def insWrong2 : Nat → Nat := fun j => if j = 0 then 1 else 3

/-- A state at the level clamp, Level = 99. -/
def s99 : GameState := ⟨fun _ => 1, 99, 3, false, GameMode.CLASSIC⟩

/-- A system state with lives exhausted at level 4 and an unset high score. -/
def sysOver : SysState := ⟨⟨fun _ => 0, 4, 0, false, GameMode.CLASSIC⟩, 255⟩

/-
Characterisation of the verification loop.
-/

/-- The failure test at a step depends on the reader result of that step
only. -/
theorem stepFails_congr (mode : GameMode) (seq : Nat → Nat) (level : Nat)
    (ins1 ins2 : Nat → Nat) (i : Nat) (h : ins2 i = ins1 i) :
    stepFails mode seq level ins1 i = stepFails mode seq level ins2 i := by
  simp [stepFails, h]

/-- A step passes exactly when the reader result is not the sentinel and
matches the expected index. -/
theorem stepFails_eq_false_iff (mode : GameMode) (seq : Nat → Nat)
    (level : Nat) (inputs : Nat → Nat) (i : Nat) :
    stepFails mode seq level inputs i = false ↔
      (inputs i ≠ 255 ∧ expectedAt mode seq level i = inputs i) := by
  simp [stepFails]

/-- Unfolding equation of the verification loop with no steps left. -/
theorem checkLoop_zero (mode : GameMode) (seq : Nat → Nat) (level : Nat)
    (inputs : Nat → Nat) (i : Nat) :
    checkLoop mode seq level inputs i 0 = none := rfl

/-- One-step unfolding equation of the verification loop. -/
theorem checkLoop_succ (mode : GameMode) (seq : Nat → Nat) (level : Nat)
    (inputs : Nat → Nat) (i rem : Nat) :
    checkLoop mode seq level inputs i (rem + 1) =
      if stepFails mode seq level inputs i then some i
      else checkLoop mode seq level inputs (i + 1) rem := rfl

/-- The loop returns some i at a failing step i. -/
theorem checkLoop_succ_of_fails (mode : GameMode) (seq : Nat → Nat)
    (level : Nat) (inputs : Nat → Nat) (i rem : Nat)
    (h : stepFails mode seq level inputs i = true) :
    checkLoop mode seq level inputs i (rem + 1) = some i := by
  rw [checkLoop_succ, if_pos h]

/-- The loop skips a passing step i. -/
theorem checkLoop_succ_of_passes (mode : GameMode) (seq : Nat → Nat)
    (level : Nat) (inputs : Nat → Nat) (i rem : Nat)
    (h : stepFails mode seq level inputs i = false) :
    checkLoop mode seq level inputs i (rem + 1) =
      checkLoop mode seq level inputs (i + 1) rem := by
  rw [checkLoop_succ, if_neg (by simp [h])]

/-- The verification loop returns none exactly when every remaining step
passes. -/
theorem checkLoop_eq_none_iff (mode : GameMode) (seq : Nat → Nat)
    (level : Nat) (inputs : Nat → Nat) :
    ∀ (rem i : Nat), checkLoop mode seq level inputs i rem = none ↔
      ∀ k, k < rem → stepFails mode seq level inputs (i + k) = false := by
  intro rem
  induction rem with
  | zero => intro i; simp [checkLoop_zero]
  | succ rem ih =>
    intro i
    cases h : stepFails mode seq level inputs i with
    | true =>
      rw [checkLoop_succ_of_fails mode seq level inputs i rem h]
      simp only [iff_iff_implies_and_implies]
      constructor
      · intro hc; exact absurd hc (by simp)
      · intro hall
        have h0 := hall 0 (by omega)
        rw [Nat.add_zero, h] at h0
        exact absurd h0 (by simp)
    | false =>
      rw [checkLoop_succ_of_passes mode seq level inputs i rem h, ih (i + 1)]
      constructor
      · intro hall k hk
        cases k with
        | zero => simpa using h
        | succ m =>
          have hm := hall m (by omega)
          have he : i + (m + 1) = i + 1 + m := by omega
          rw [he]; exact hm
      · intro hall k hk
        have hm := hall (k + 1) (by omega)
        have he : i + 1 + k = i + (k + 1) := by omega
        rw [he]; exact hm

/-- When the verification loop returns some j, step j is the first failing
step among those scanned. -/
theorem checkLoop_eq_some_spec (mode : GameMode) (seq : Nat → Nat)
    (level : Nat) (inputs : Nat → Nat) :
    ∀ (rem i j : Nat), checkLoop mode seq level inputs i rem = some j →
      i ≤ j ∧ j < i + rem ∧ stepFails mode seq level inputs j = true ∧
        ∀ k, i ≤ k → k < j → stepFails mode seq level inputs k = false := by
  intro rem
  induction rem with
  | zero => intro i j h; exact absurd h (by simp [checkLoop])
  | succ rem ih =>
    intro i j h
    cases hf : stepFails mode seq level inputs i with
    | true =>
      rw [checkLoop_succ_of_fails mode seq level inputs i rem hf] at h
      obtain rfl : i = j := by injection h
      exact ⟨Nat.le_refl _, by omega, hf, fun k hk1 hk2 => absurd hk2 (by omega)⟩
    | false =>
      rw [checkLoop_succ_of_passes mode seq level inputs i rem hf] at h
      obtain ⟨hij, hjr, hjf, hall⟩ := ih (i + 1) j h
      refine ⟨by omega, by omega, hjf, ?_⟩
      intro k hk1 hk2
      rcases Nat.eq_or_lt_of_le hk1 with heq | hlt
      · rw [← heq]; exact hf
      · exact hall k (by omega) hk2

/-- Two reader-result streams that agree strictly below a step k at which
both fail drive the verification loop identically. -/
theorem checkLoop_congr (mode : GameMode) (seq : Nat → Nat) (level : Nat)
    (ins1 ins2 : Nat → Nat) (k : Nat)
    (hag : ∀ j, j < k → ins2 j = ins1 j)
    (h1 : stepFails mode seq level ins1 k = true)
    (h2 : stepFails mode seq level ins2 k = true) :
    ∀ (rem i : Nat), i ≤ k →
      checkLoop mode seq level ins1 i rem = checkLoop mode seq level ins2 i rem := by
  intro rem
  induction rem with
  | zero => intro i _; rfl
  | succ rem ih =>
    intro i hik
    rcases Nat.eq_or_lt_of_le hik with heq | hlt
    · subst heq
      rw [checkLoop_succ_of_fails mode seq level ins1 i rem h1,
        checkLoop_succ_of_fails mode seq level ins2 i rem h2]
    · have heq2 : stepFails mode seq level ins1 i = stepFails mode seq level ins2 i :=
        stepFails_congr mode seq level ins1 ins2 i (hag i hlt)
      cases hf : stepFails mode seq level ins1 i with
      | true =>
        have hf2 : stepFails mode seq level ins2 i = true := by rw [← heq2]; exact hf
        rw [checkLoop_succ_of_fails mode seq level ins1 i rem hf,
          checkLoop_succ_of_fails mode seq level ins2 i rem hf2]
      | false =>
        have hf2 : stepFails mode seq level ins2 i = false := by rw [← heq2]; exact hf
        rw [checkLoop_succ_of_passes mode seq level ins1 i rem hf,
          checkLoop_succ_of_passes mode seq level ins2 i rem hf2]
        exact ih (i + 1) (by omega)

/-- Unfolding checkUserSequence when the loop found a failing step. -/
theorem checkUserSequence_eq_of_some (s : GameState) (inputs : Nat → Nat)
    (j : Nat)
    (h : checkLoop s.currentMode s.gameSequence s.Level inputs 0 s.Level = some j) :
    checkUserSequence s inputs =
      ⟨false, { s with lives := decLives s.lives }, j + 1⟩ := by
  unfold checkUserSequence
  rw [h]

/-- Unfolding checkUserSequence when every step passed. -/
theorem checkUserSequence_eq_of_none (s : GameState) (inputs : Nat → Nat)
    (h : checkLoop s.currentMode s.gameSequence s.Level inputs 0 s.Level = none) :
    checkUserSequence s inputs = ⟨true, s, s.Level⟩ := by
  unfold checkUserSequence
  rw [h]

/-- checkUserSequence reports success exactly when the loop found no
failing step. -/
theorem checkUserSequence_ok_iff (s : GameState) (inputs : Nat → Nat) :
    ((checkUserSequence s inputs).ok = true) ↔
      checkLoop s.currentMode s.gameSequence s.Level inputs 0 s.Level = none := by
  cases hc : checkLoop s.currentMode s.gameSequence s.Level inputs 0 s.Level with
  | some j => rw [checkUserSequence_eq_of_some s inputs j hc]; simp
  | none => rw [checkUserSequence_eq_of_none s inputs hc]; simp

/-- checkUserSequence reports success exactly when every step of the round
passes its failure test. -/
theorem checkUserSequence_ok_iff_all (s : GameState) (inputs : Nat → Nat) :
    ((checkUserSequence s inputs).ok = true) ↔
      ∀ i, i < s.Level →
        stepFails s.currentMode s.gameSequence s.Level inputs i = false := by
  rw [checkUserSequence_ok_iff, checkLoop_eq_none_iff]
  constructor
  · intro h i hi
    have := h i hi
    rwa [Nat.zero_add] at this
  · intro h k hk
    rw [Nat.zero_add]
    exact h k hk

/-- Under the sequence-store invariant (every stored index is in 0..3),
success is equivalent to the reader results matching the expected indices
pointwise. -/
theorem checkUserSequence_ok_iff_expected (s : GameState) (inputs : Nat → Nat)
    (hseq : ∀ j, j < s.Level → s.gameSequence j ≤ 3) :
    ((checkUserSequence s inputs).ok = true) ↔
      ∀ i, i < s.Level →
        inputs i = expectedAt s.currentMode s.gameSequence s.Level i := by
  rw [checkUserSequence_ok_iff_all]
  constructor
  · intro h i hi
    obtain ⟨-, h2⟩ := (stepFails_eq_false_iff _ _ _ _ _).mp (h i hi)
    exact h2.symm
  · intro h i hi
    rw [stepFails_eq_false_iff]
    have hexp : expectedAt s.currentMode s.gameSequence s.Level i ≤ 3 := by
      unfold expectedAt
      split
      · exact hseq _ (by omega)
      · exact hseq _ hi
    have hi2 := h i hi
    exact ⟨by omega, hi2.symm⟩

/-- Claim C1: for every level L at least 1 and every step position i in
0..L-1, the expected colour index during verification is
gameSequence[L-1-i] when the mode is Reverse, and gameSequence[i] in every
other mode: under the sequence-store invariant, a verification attempt
succeeds exactly when the reader results follow that order. -/
theorem c1_expected_index (s : GameState) (inputs : Nat → Nat)
    (_hL : 1 ≤ s.Level) (hseq : ∀ j, j < s.Level → s.gameSequence j ≤ 3) :
    (s.currentMode = GameMode.REVERSE →
      (((checkUserSequence s inputs).ok = true) ↔
        ∀ i, i < s.Level → inputs i = s.gameSequence (s.Level - 1 - i))) ∧
    (s.currentMode ≠ GameMode.REVERSE →
      (((checkUserSequence s inputs).ok = true) ↔
        ∀ i, i < s.Level → inputs i = s.gameSequence i)) := by
  constructor
  · intro hm
    rw [checkUserSequence_ok_iff_expected s inputs hseq]
    constructor
    · intro h i hi
      have := h i hi
      rwa [expectedAt, if_pos hm] at this
    · intro h i hi
      rw [expectedAt, if_pos hm]
      exact h i hi
  · intro hm
    rw [checkUserSequence_ok_iff_expected s inputs hseq]
    constructor
    · intro h i hi
      have := h i hi
      rwa [expectedAt, if_neg hm] at this
    · intro h i hi
      rw [expectedAt, if_neg hm]
      exact h i hi

/-- Witness for C1: the Reverse-mode state with sequence [3, 1] accepts
exactly the reversed replication [1, 3]. -/
theorem c1_expected_index_witness :
    1 ≤ sRev.Level ∧ (∀ j, j < sRev.Level → sRev.gameSequence j ≤ 3) ∧
      (((checkUserSequence sRev insRev).ok = true) ↔
        ∀ i, i < sRev.Level → insRev i = sRev.gameSequence (sRev.Level - 1 - i)) :=
  ⟨by decide, by decide,
    (c1_expected_index sRev insRev (by decide) (by decide)).1 rfl⟩

/-- Claim C2: a failed verification attempt decrements lives by exactly 1,
stops at the first failing step (consuming exactly that many reads) and
leaves Level, the mode and every cell of the sequence store unchanged; a
fully matching attempt returns success with the state unchanged. -/
theorem c2_failure_frame (s : GameState) (inputs : Nat → Nat)
    (hl1 : 1 ≤ s.lives) (hl2 : s.lives ≤ 255) :
    ((checkUserSequence s inputs).ok = false →
      (checkUserSequence s inputs).state.lives = s.lives - 1 ∧
      (checkUserSequence s inputs).state.Level = s.Level ∧
      (checkUserSequence s inputs).state.currentMode = s.currentMode ∧
      (∀ j, (checkUserSequence s inputs).state.gameSequence j = s.gameSequence j) ∧
      ∃ i, i < s.Level ∧
        stepFails s.currentMode s.gameSequence s.Level inputs i = true ∧
        (∀ k, k < i → stepFails s.currentMode s.gameSequence s.Level inputs k = false) ∧
        (checkUserSequence s inputs).readsUsed = i + 1) ∧
    ((∀ i, i < s.Level →
        stepFails s.currentMode s.gameSequence s.Level inputs i = false) →
      checkUserSequence s inputs = ⟨true, s, s.Level⟩) := by
  constructor
  · intro hfail
    cases hc : checkLoop s.currentMode s.gameSequence s.Level inputs 0 s.Level with
    | none =>
      rw [checkUserSequence_eq_of_none s inputs hc] at hfail
      exact absurd hfail (by simp)
    | some j =>
      obtain ⟨-, hjr, hjf, hall⟩ := checkLoop_eq_some_spec _ _ _ _ _ _ _ hc
      rw [checkUserSequence_eq_of_some s inputs j hc]
      refine ⟨?_, rfl, rfl, fun j => rfl, j, by omega, hjf,
        fun k hk => hall k (by omega) hk, rfl⟩
      show (s.lives + 255) % 256 = s.lives - 1
      omega
  · intro hpass
    apply checkUserSequence_eq_of_none
    rw [checkLoop_eq_none_iff]
    intro k hk
    rw [Nat.zero_add]
    exact hpass k hk

/-- Witness for C2: the Classic-mode state with sequence [1, 0, 2] and the
wrong replication [1, 2, 2] loses exactly one life at step 1. -/
theorem c2_failure_frame_witness :
    1 ≤ sClassic3.lives ∧ sClassic3.lives ≤ 255 ∧
      ((checkUserSequence sClassic3 insWrong).ok = false →
        (checkUserSequence sClassic3 insWrong).state.lives = sClassic3.lives - 1 ∧
        (checkUserSequence sClassic3 insWrong).state.Level = sClassic3.Level ∧
        (checkUserSequence sClassic3 insWrong).state.currentMode = sClassic3.currentMode ∧
        (∀ j, (checkUserSequence sClassic3 insWrong).state.gameSequence j =
          sClassic3.gameSequence j) ∧
        ∃ i, i < sClassic3.Level ∧
          stepFails sClassic3.currentMode sClassic3.gameSequence sClassic3.Level insWrong i = true ∧
          (∀ k, k < i →
            stepFails sClassic3.currentMode sClassic3.gameSequence sClassic3.Level insWrong k = false) ∧
          (checkUserSequence sClassic3 insWrong).readsUsed = i + 1) :=
  ⟨by decide, by decide,
    (c2_failure_frame sClassic3 insWrong (by decide) (by decide)).1⟩

/-
The high-score store.
-/

/-- Folding a list of candidate scores through the high-score update. -/
def foldScores (h : Nat) (ss : List Nat) : Nat :=
  List.foldl (fun st x => (updateHighScore x st).2) h ss

/-- One update never decreases a stored real score and keeps it real when
the candidate is a real score. -/
theorem updateHighScore_step_mono (sc h : Nat) (hh : h ≤ 254) (hsc : sc ≤ 254) :
    h ≤ (updateHighScore sc h).2 ∧ (updateHighScore sc h).2 ≤ 254 := by
  unfold updateHighScore
  by_cases hc : h = 255 ∨ sc > h
  · rw [if_pos hc]
    constructor
    · rcases hc with hc | hc
      · omega
      · omega
    · exact hsc
  · rw [if_neg hc]
    exact ⟨Nat.le_refl _, hh⟩

/-- Folding real candidate scores through the update never decreases a
stored real score. -/
theorem foldScores_mono (ss : List Nat) :
    ∀ h, h ≤ 254 → (∀ x ∈ ss, x ≤ 254) → h ≤ foldScores h ss := by
  induction ss with
  | nil => intro h _ _; exact Nat.le_refl _
  | cons x ss ih =>
    intro h hh hx
    have hx0 : x ≤ 254 := hx x (by simp)
    obtain ⟨h1, h2⟩ := updateHighScore_step_mono x h hh hx0
    have hrest : (updateHighScore x h).2 ≤ foldScores (updateHighScore x h).2 ss :=
      ih (updateHighScore x h).2 h2 (fun y hy => hx y (by simp [hy]))
    calc h ≤ (updateHighScore x h).2 := h1
      _ ≤ foldScores (updateHighScore x h).2 ss := hrest
      _ = foldScores h (x :: ss) := rfl

/-- Claim C4: the high-score update writes the candidate score exactly when
the stored byte is the 255 sentinel or the candidate is strictly greater;
the written value is the candidate, no write leaves the byte untouched, an
update never decreases a non-sentinel stored value, and across any list of
real candidate scores the stored real value never decreases. -/
theorem c4_highscore_update (sc h : Nat) (ss : List Nat) :
    ((updateHighScore sc h).1 = true ↔ (h = 255 ∨ sc > h)) ∧
    ((updateHighScore sc h).1 = true → (updateHighScore sc h).2 = sc) ∧
    ((updateHighScore sc h).1 = false → (updateHighScore sc h).2 = h) ∧
    (h ≠ 255 → h ≤ (updateHighScore sc h).2) ∧
    (h ≤ 254 → (∀ x ∈ ss, x ≤ 254) → h ≤ foldScores h ss) := by
  refine ⟨?_, ?_, ?_, ?_, fun hh hx => foldScores_mono ss h hh hx⟩
  · unfold updateHighScore
    by_cases hc : h = 255 ∨ sc > h
    · rw [if_pos hc]; simpa using hc
    · rw [if_neg hc]; simpa using hc
  · intro hw
    unfold updateHighScore at hw ⊢
    by_cases hc : h = 255 ∨ sc > h
    · rw [if_pos hc]
    · rw [if_neg hc] at hw
      exact absurd hw (by simp)
  · intro hw
    unfold updateHighScore at hw ⊢
    by_cases hc : h = 255 ∨ sc > h
    · rw [if_pos hc] at hw
      exact absurd hw (by simp)
    · rw [if_neg hc]
  · intro hns
    unfold updateHighScore
    by_cases hc : h = 255 ∨ sc > h
    · rw [if_pos hc]
      rcases hc with hc | hc
      · exact absurd hc hns
      · omega
    · rw [if_neg hc]

/-- Witness for C4: updating a stored 5 with candidate 7 writes 7; folding
the candidates [3, 7, 2] over a stored 5 yields at least 5. -/
theorem c4_highscore_update_witness :
    ((updateHighScore 7 5).1 = true ↔ ((5:Nat) = 255 ∨ 7 > 5)) ∧
      ((updateHighScore 7 5).1 = true → (updateHighScore 7 5).2 = 7) ∧
      ((5:Nat) ≤ 254 → (∀ x ∈ [3, 7, 2], x ≤ 254) → 5 ≤ foldScores 5 [3, 7, 2]) :=
  ⟨(c4_highscore_update 7 5 [3, 7, 2]).1,
    (c4_highscore_update 7 5 [3, 7, 2]).2.1,
    (c4_highscore_update 7 5 [3, 7, 2]).2.2.2.2⟩

/-
Cue rendering (claim C9).
-/

/-- Counterexample to claim C9 as stated: with the game muted, playing one
step in Classic mode lights the LED but emits no tone, so the cue is not a
light-and-tone-together emission. -/
theorem c9_muted_counterexample :
    playStepEv GameMode.CLASSIC true 0 = Ev.step (some 0) none 300 ∧
      evTone (playStepEv GameMode.CLASSIC true 0) = none ∧
      ¬ playStepEv GameMode.CLASSIC true 0 = Ev.step (some 0) (some 0) 300 := by
  decide

/-- Amended claim C9: playing one step in Stealth mode emits a tone only
(no light) for exactly 300 ms when unmuted, and when muted performs no
emission but still waits the same 300 ms; in every other mode it lights the
LED for the same 300 ms, together with the tone when unmuted, and with no
tone (light only) when muted. -/
theorem c9_step_render (mode : GameMode) (muted : Bool) (c : Nat) :
    evDur (playStepEv mode muted c) = 300 ∧
    (mode = GameMode.STEALTH → muted = false →
      playStepEv mode muted c = Ev.step none (some c) 300) ∧
    (mode = GameMode.STEALTH → muted = true →
      playStepEv mode muted c = Ev.step none none 300) ∧
    (mode ≠ GameMode.STEALTH → muted = false →
      playStepEv mode muted c = Ev.step (some c) (some c) 300) ∧
    (mode ≠ GameMode.STEALTH → muted = true →
      playStepEv mode muted c = Ev.step (some c) none 300) := by
  cases mode <;> cases muted <;>
    simp [playStepEv, lightLedAndPlayTone, evDur]

/-- Witness for the amended C9: the unmuted Stealth cue for colour 2 and
the unmuted Classic cue for colour 1. -/
theorem c9_step_render_witness :
    playStepEv GameMode.STEALTH false 2 = Ev.step none (some 2) 300 ∧
      playStepEv GameMode.CLASSIC false 1 = Ev.step (some 1) (some 1) 300 :=
  ⟨(c9_step_render GameMode.STEALTH false 2).2.1 rfl rfl,
    (c9_step_render GameMode.CLASSIC false 1).2.2.2.1 (by decide) rfl⟩

/-
The sequence store (claim C3).
-/

/-- Unfolding equation for the level after one extension. -/
theorem extendStep_Level_eq (s : GameState) (r : Nat) :
    (extendStep s r).Level =
      if MAX_GAME_LENGTH ≤ s.Level + 1 then MAX_GAME_LENGTH - 1
      else s.Level + 1 := rfl

/-- Unfolding equation for the store cells after one extension: only the
cell at the old level is written. -/
theorem extendStep_seq_eq (s : GameState) (r : Nat) (j : Nat) :
    (extendStep s r).gameSequence j =
      if j = s.Level then r else s.gameSequence j := rfl

/-- The logical sequence has exactly Level elements. -/
theorem seqList_length (s : GameState) : (seqList s).length = s.Level := by
  simp [seqList]

/-- One extension keeps the level within the cap and never lowers it. -/
theorem extendStep_mono (s : GameState) (r : Nat)
    (hs : s.Level ≤ MAX_GAME_LENGTH - 1) :
    s.Level ≤ (extendStep s r).Level ∧
      (extendStep s r).Level ≤ MAX_GAME_LENGTH - 1 := by
  rw [extendStep_Level_eq]
  unfold MAX_GAME_LENGTH at hs ⊢
  constructor <;> [skip; skip] <;> split <;> omega

/-- Any run of extensions preserves the level cap and every cell below the
starting level. -/
theorem extend_foldl_preserve (rs : List Nat) :
    ∀ s : GameState, s.Level ≤ MAX_GAME_LENGTH - 1 →
      s.Level ≤ (List.foldl extendStep s rs).Level ∧
      (List.foldl extendStep s rs).Level ≤ MAX_GAME_LENGTH - 1 ∧
      ∀ j, j < s.Level →
        (List.foldl extendStep s rs).gameSequence j = s.gameSequence j := by
  induction rs with
  | nil => intro s hs; exact ⟨Nat.le_refl _, hs, fun j _ => rfl⟩
  | cons r rs ih =>
    intro s hs
    have h1 := extendStep_mono s r hs
    obtain ⟨ih1, ih2, ih3⟩ := ih (extendStep s r) h1.2
    rw [List.foldl_cons]
    refine ⟨Nat.le_trans h1.1 ih1, ih2, ?_⟩
    intro j hj
    rw [ih3 j (Nat.lt_of_lt_of_le hj h1.1), extendStep_seq_eq, if_neg (by omega)]

/-- At the clamp, any run of extensions leaves the level and the logical
sequence unchanged. -/
theorem extend_foldl_clamp (rs : List Nat) :
    ∀ s : GameState, s.Level = MAX_GAME_LENGTH - 1 →
      (List.foldl extendStep s rs).Level = s.Level ∧
      seqList (List.foldl extendStep s rs) = seqList s := by
  induction rs with
  | nil => intro s _; exact ⟨rfl, rfl⟩
  | cons r rs ih =>
    intro s hs
    have hl : (extendStep s r).Level = s.Level := by
      rw [extendStep_Level_eq]
      unfold MAX_GAME_LENGTH at hs ⊢
      split <;> omega
    have hseq : seqList (extendStep s r) = seqList s := by
      unfold seqList
      rw [hl]
      apply List.map_congr_left
      intro a ha
      rw [List.mem_range] at ha
      rw [extendStep_seq_eq, if_neg (by omega)]
    obtain ⟨ihl, ihs⟩ := ih (extendStep s r) (by rw [hl]; exact hs)
    rw [List.foldl_cons]
    exact ⟨by rw [ihl, hl], by rw [ihs, hseq]⟩

/-- Claim C3: from any level within the cap, one extension keeps the level
at most MAX_GAME_LENGTH - 1 and the logical sequence length at most
MAX_GAME_LENGTH; cells below the starting level are never rewritten by any
run of later extensions; and once the level has reached
MAX_GAME_LENGTH - 1 every further extension is a no-op on the level and
the logical sequence. -/
theorem c3_level_clamp (s : GameState) (r : Nat)
    (hs : s.Level ≤ MAX_GAME_LENGTH - 1) :
    ((extendStep s r).Level ≤ MAX_GAME_LENGTH - 1) ∧
    ((seqList (extendStep s r)).length ≤ MAX_GAME_LENGTH) ∧
    (∀ (rs : List Nat) (j : Nat), j < s.Level →
      (List.foldl extendStep s rs).gameSequence j = s.gameSequence j) ∧
    (s.Level = MAX_GAME_LENGTH - 1 →
      ∀ rs : List Nat, (List.foldl extendStep s rs).Level = s.Level ∧
        seqList (List.foldl extendStep s rs) = seqList s) := by
  have h1 := extendStep_mono s r hs
  refine ⟨h1.2, ?_, ?_, ?_⟩
  · rw [seqList_length]
    unfold MAX_GAME_LENGTH at h1 ⊢
    omega
  · intro rs j hj
    exact (extend_foldl_preserve rs s hs).2.2 j hj
  · intro hclamp rs
    exact extend_foldl_clamp rs s hclamp

/-- Witness for C3: a state at the clamp level 99 is left unchanged by two
further extensions. -/
theorem c3_level_clamp_witness :
    s99.Level ≤ MAX_GAME_LENGTH - 1 ∧
      (extendStep s99 2).Level ≤ MAX_GAME_LENGTH - 1 ∧
      (s99.Level = MAX_GAME_LENGTH - 1 →
        ∀ rs : List Nat, (List.foldl extendStep s99 rs).Level = s99.Level ∧
          seqList (List.foldl extendStep s99 rs) = seqList s99) :=
  ⟨by decide, (c3_level_clamp s99 2 (by decide)).1,
    (c3_level_clamp s99 2 (by decide)).2.2.2⟩

/-
Sequence playback (claim C5).
-/

/-- Every per-step cue is a step event. -/
theorem isStepEv_playStepEv (mode : GameMode) (muted : Bool) (c : Nat) :
    isStepEv (playStepEv mode muted c) = true := by
  cases mode <;> cases muted <;>
    simp [playStepEv, lightLedAndPlayTone, isStepEv]

/-- Unfolding equation of the playback loop with no steps left. -/
theorem playSeqFrom_zero (mode : GameMode) (muted : Bool) (seq : Nat → Nat)
    (g : Int) (i : Nat) : playSeqFrom mode muted seq g i 0 = [] := rfl

/-- One-step unfolding equation of the playback loop. -/
theorem playSeqFrom_succ (mode : GameMode) (muted : Bool) (seq : Nat → Nat)
    (g : Int) (i rem : Nat) :
    playSeqFrom mode muted seq g i (rem + 1) =
      playStepEv mode muted (seq i) :: Ev.pause g ::
        playSeqFrom mode muted seq g (i + 1) rem := rfl

/-- The step events of the playback trace are exactly the cues of the
scanned range, in forward order. -/
theorem playSeqFrom_filter (mode : GameMode) (muted : Bool) (seq : Nat → Nat)
    (g : Int) :
    ∀ rem i, (playSeqFrom mode muted seq g i rem).filter isStepEv =
      (List.range rem).map (fun k => playStepEv mode muted (seq (i + k))) := by
  intro rem
  induction rem with
  | zero => intro i; rw [playSeqFrom_zero]; rfl
  | succ rem ih =>
    intro i
    rw [playSeqFrom_succ, List.filter_cons, List.filter_cons]
    rw [isStepEv_playStepEv]
    have hp : isStepEv (Ev.pause g) = false := rfl
    rw [hp]
    simp only [if_true, if_false, ite_true, ite_false]
    rw [ih (i + 1), List.range_succ_eq_map, List.map_cons, List.map_map]
    congr 1
    apply List.map_congr_left
    intro a _
    have he : i + 1 + a = i + (a + 1) := by omega
    simp only [Function.comp]
    rw [he]

/-- Positions in the playback trace: the cue for step k sits at index 2k
and is followed at index 2k+1 by the pacing pause. -/
theorem playSeqFrom_get (mode : GameMode) (muted : Bool) (seq : Nat → Nat)
    (g : Int) :
    ∀ rem i k, k < rem →
      (playSeqFrom mode muted seq g i rem).get? (2 * k) =
        some (playStepEv mode muted (seq (i + k))) ∧
      (playSeqFrom mode muted seq g i rem).get? (2 * k + 1) =
        some (Ev.pause g) := by
  intro rem
  induction rem with
  | zero => intro i k hk; exact absurd hk (by omega)
  | succ rem ih =>
    intro i k hk
    rw [playSeqFrom_succ]
    cases k with
    | zero => simp
    | succ m =>
      have h1 : 2 * (m + 1) = 2 * m + 1 + 1 := by omega
      rw [h1]
      simp only [List.get?_cons_succ]
      have he : i + (m + 1) = i + 1 + m := by omega
      rw [he]
      exact ih (i + 1) m (by omega)

/-- Claim C5: for every level L at least 1, playSequence emits exactly L
cues, one per sequence element in forward order, each cue at trace index
2k and followed at index 2k+1 by the pacing pause of
max(100, 400 - L*10) milliseconds. -/
theorem c5_playback_trace (s : GameState) (_hL : 1 ≤ s.Level) :
    (((playSequence s).filter isStepEv).length = s.Level) ∧
    (∀ k, k < s.Level →
      ((playSequence s).filter isStepEv).get? k =
        some (playStepEv s.currentMode s.isMuted (s.gameSequence k))) ∧
    (∀ k, k < s.Level →
      (playSequence s).get? (2 * k) =
        some (playStepEv s.currentMode s.isMuted (s.gameSequence k)) ∧
      (playSequence s).get? (2 * k + 1) =
        some (Ev.pause (max 100 (400 - (s.Level : Int) * 10)))) := by
  unfold playSequence
  rw [playSeqFrom_filter]
  refine ⟨by simp, ?_, ?_⟩
  · intro k hk
    rw [List.get?_map, List.get?_range hk]
    simp
  · intro k hk
    have h := playSeqFrom_get s.currentMode s.isMuted s.gameSequence
      (pacingGap s.Level) s.Level 0 k hk
    rw [Nat.zero_add] at h
    exact h

/-- Witness for C5: the Classic level-3 trace has three cues, the cue for
step 1 at index 2 and the 370 ms pacing pause at index 3. -/
theorem c5_playback_trace_witness :
    1 ≤ sClassic3.Level ∧
      ((playSequence sClassic3).filter isStepEv).length = sClassic3.Level ∧
      ((playSequence sClassic3).get? (2 * 1) =
        some (playStepEv sClassic3.currentMode sClassic3.isMuted
          (sClassic3.gameSequence 1)) ∧
      (playSequence sClassic3).get? (2 * 1 + 1) =
        some (Ev.pause (max 100 (400 - (sClassic3.Level : Int) * 10)))) :=
  ⟨by decide, (c5_playback_trace sClassic3 (by decide)).1,
    (c5_playback_trace sClassic3 (by decide)).2.2 1 (by decide)⟩

/-
The input readers (claims C6, C7, C10).
-/

/-- Unfolding equation of the release wait with no fuel. -/
theorem awaitRelease_zero (btn : Nat → Nat → Bool) (i t : Nat) :
    awaitRelease btn i 0 t = none := rfl

/-- One-step unfolding equation of the release wait. -/
theorem awaitRelease_succ (btn : Nat → Nat → Bool) (i fuel t : Nat) :
    awaitRelease btn i (fuel + 1) t =
      if btn t i then awaitRelease btn i fuel (t + 1) else some t := rfl

/-- Unfolding equation of the button pass with no buttons left. -/
theorem scanPass_zero (btn : Nat → Nat → Bool) (rf t : Nat) :
    scanPass btn rf 0 t = ScanOut.pass t := rfl

/-- One-step unfolding equation of the button pass. -/
theorem scanPass_succ (btn : Nat → Nat → Bool) (rf rem t : Nat) :
    scanPass btn rf (rem + 1) t =
      if btn t (4 - (rem + 1)) then
        if btn (t + 20) (4 - (rem + 1)) then
          match awaitRelease btn (4 - (rem + 1)) rf (t + 20) with
          | some tr => ScanOut.found (4 - (rem + 1)) tr
          | none => ScanOut.stuck
        else scanPass btn rf rem (t + 20)
      else scanPass btn rf rem t := rfl

/-- Unfolding equation of the blocking reader with no fuel. -/
theorem readDeb_zero (btn : Nat → Nat → Bool) (rf t : Nat) :
    readButtonsDebounced btn rf 0 t = none := rfl

/-- One-step unfolding equation of the blocking reader. -/
theorem readDeb_succ (btn : Nat → Nat → Bool) (rf fuel t : Nat) :
    readButtonsDebounced btn rf (fuel + 1) t =
      match scanPass btn rf 4 t with
      | .found i tr => some (i, tr)
      | .stuck => none
      | .pass u => readButtonsDebounced btn rf fuel (u + 1) := rfl

/-- When the release wait returns a time, the contact reads open there and
read closed at every poll from the start of the wait until then. -/
theorem awaitRelease_spec (btn : Nat → Nat → Bool) (i : Nat) :
    ∀ fuel t tr, awaitRelease btn i fuel t = some tr →
      t ≤ tr ∧ btn tr i = false ∧ ∀ u, t ≤ u → u < tr → btn u i = true := by
  intro fuel
  induction fuel with
  | zero => intro t tr h; exact absurd h (by rw [awaitRelease_zero]; simp)
  | succ fuel ih =>
    intro t tr h
    cases hb : btn t i with
    | true =>
      rw [awaitRelease_succ, if_pos hb] at h
      obtain ⟨h1, h2, h3⟩ := ih (t + 1) tr h
      refine ⟨by omega, h2, ?_⟩
      intro u hu1 hu2
      rcases Nat.eq_or_lt_of_le hu1 with heq | hlt
      · rw [← heq]; exact hb
      · exact h3 u (by omega) hu2
    | false =>
      rw [awaitRelease_succ, if_neg (by simp [hb])] at h
      injection h with h
      subst h
      exact ⟨Nat.le_refl _, hb, fun u hu1 hu2 => absurd hu2 (by omega)⟩

/-- A button pass that completes never moves time backwards. -/
theorem scanPass_pass_le (btn : Nat → Nat → Bool) (rf : Nat) :
    ∀ rem t u, scanPass btn rf rem t = ScanOut.pass u → t ≤ u := by
  intro rem
  induction rem with
  | zero =>
    intro t u h
    rw [scanPass_zero] at h
    injection h with h
    omega
  | succ rem ih =>
    intro t u h
    rw [scanPass_succ] at h
    cases hb : btn t (4 - (rem + 1)) with
    | true =>
      rw [if_pos hb] at h
      cases hb2 : btn (t + 20) (4 - (rem + 1)) with
      | true =>
        rw [if_pos hb2] at h
        cases ha : awaitRelease btn (4 - (rem + 1)) rf (t + 20) with
        | some tr => rw [ha] at h; exact absurd h (by simp)
        | none => rw [ha] at h; exact absurd h (by simp)
      | false =>
        rw [if_neg (by rw [hb2]; simp)] at h
        have := ih (t + 20) u h
        omega
    | false =>
      rw [if_neg (by rw [hb]; simp)] at h
      exact ih t u h

/-- When a button pass registers a press, the registered index is one of
the four buttons and was observed closed at some poll and again at the
re-poll 20 ms later, after which the release wait produced the return
time. -/
theorem scanPass_found_spec (btn : Nat → Nat → Bool) (rf : Nat) :
    ∀ rem t i tr, scanPass btn rf rem t = ScanOut.found i tr →
      i < 4 ∧ ∃ t1, t ≤ t1 ∧ btn t1 i = true ∧ btn (t1 + 20) i = true ∧
        awaitRelease btn i rf (t1 + 20) = some tr := by
  intro rem
  induction rem with
  | zero =>
    intro t i tr h
    rw [scanPass_zero] at h
    exact absurd h (by simp)
  | succ rem ih =>
    intro t i tr h
    rw [scanPass_succ] at h
    cases hb : btn t (4 - (rem + 1)) with
    | true =>
      rw [if_pos hb] at h
      cases hb2 : btn (t + 20) (4 - (rem + 1)) with
      | true =>
        rw [if_pos hb2] at h
        cases ha : awaitRelease btn (4 - (rem + 1)) rf (t + 20) with
        | some tr0 =>
          rw [ha] at h
          have h' : ScanOut.found (4 - (rem + 1)) tr0 = ScanOut.found i tr := h
          injection h' with h1 h2
          subst h1
          subst h2
          exact ⟨by omega, t, Nat.le_refl _, hb, hb2, ha⟩
        | none =>
          rw [ha] at h
          exact absurd h (by simp)
      | false =>
        rw [if_neg (by rw [hb2]; simp)] at h
        obtain ⟨hi, t1, ht1, rest⟩ := ih (t + 20) i tr h
        exact ⟨hi, t1, by omega, rest⟩
    | false =>
      rw [if_neg (by rw [hb]; simp)] at h
      exact ih t i tr h

/-- Every press the blocking reader registers comes from a contact that was
observed closed at some poll and again at the re-poll 20 ms later; the
reader returns only at the first open poll after that, so the contact was
held through every poll until the return time. -/
theorem readDeb_found_spec (btn : Nat → Nat → Bool) (rf : Nat) :
    ∀ fuel t0 i tr, readButtonsDebounced btn rf fuel t0 = some (i, tr) →
      i < 4 ∧ ∃ t1, t0 ≤ t1 ∧ btn t1 i = true ∧ btn (t1 + 20) i = true ∧
        t1 + 20 ≤ tr ∧ btn tr i = false ∧
        ∀ u, t1 + 20 ≤ u → u < tr → btn u i = true := by
  intro fuel
  induction fuel with
  | zero =>
    intro t0 i tr h
    exact absurd h (by rw [readDeb_zero]; simp)
  | succ fuel ih =>
    intro t0 i tr h
    rw [readDeb_succ] at h
    cases hs : scanPass btn rf 4 t0 with
    | found i0 tr0 =>
      rw [hs] at h
      have h' : (some (i0, tr0) : Option (Nat × Nat)) = some (i, tr) := h
      injection h' with h''
      injection h'' with h1 h2
      rw [h1, h2] at hs
      obtain ⟨hi, t1, ht01, hb1, hb2, ha⟩ := scanPass_found_spec btn rf 4 t0 i tr hs
      obtain ⟨hle, hrel, hheld⟩ := awaitRelease_spec btn i rf (t1 + 20) tr ha
      exact ⟨hi, t1, ht01, hb1, hb2, hle, hrel, hheld⟩
    | stuck =>
      rw [hs] at h
      exact absurd h (by simp)
    | pass u =>
      rw [hs] at h
      have h' : readButtonsDebounced btn rf fuel (u + 1) = some (i, tr) := h
      obtain ⟨hi, t1, ht1, rest⟩ := ih (u + 1) i tr h'
      have hu := scanPass_pass_le btn rf 4 t0 u hs
      exact ⟨hi, t1, by omega, rest⟩

/-- A pass over buttons that all read open completes immediately. -/
theorem scanPass_allFalse (btn : Nat → Nat → Bool) (rf t : Nat)
    (hf : ∀ j, j < 4 → btn t j = false) :
    ∀ rem, scanPass btn rf rem t = ScanOut.pass t := by
  intro rem
  induction rem with
  | zero => rfl
  | succ rem ih =>
    rw [scanPass_succ, if_neg (by rw [hf (4 - (rem + 1)) (by omega)]; simp)]
    exact ih

/-- The blocking reader never registers anything while every button reads
open from the current time on. -/
theorem readDeb_none (btn : Nat → Nat → Bool) (rf : Nat) :
    ∀ fuel t, (∀ u j, t ≤ u → j < 4 → btn u j = false) →
      readButtonsDebounced btn rf fuel t = none := by
  intro fuel
  induction fuel with
  | zero => intro t _; rfl
  | succ fuel ih =>
    intro t hall
    rw [readDeb_succ,
      scanPass_allFalse btn rf t (fun j hj => hall t j (Nat.le_refl _) hj) 4]
    show readButtonsDebounced btn rf fuel (t + 1) = none
    exact ih (t + 1) (fun u j hu hj => hall u j (by omega) hj)

/-- The single closure reads closed on button i within its window. -/
theorem singleClosure_true (i t1 t2 t : Nat) (h1 : t1 ≤ t) (h2 : t < t2) :
    singleClosure i t1 t2 t i = true := by
  simp [singleClosure]
  exact ⟨h1, h2⟩

/-- The single closure reads open outside its window and on every other
button. -/
theorem singleClosure_false (i t1 t2 t j : Nat)
    (h : t < t1 ∨ t2 ≤ t ∨ j ≠ i) : singleClosure i t1 t2 t j = false := by
  unfold singleClosure
  simp only [decide_eq_false_iff_not]
  rintro ⟨hj, ha, hb⟩
  rcases h with h | h | h
  · omega
  · omega
  · exact h hj

/-- Waiting out the single closure from inside its window returns the
release time t2. -/
theorem awaitRelease_sc (i t1 t2 : Nat) :
    ∀ rf t, t1 ≤ t → t ≤ t2 → t2 - t < rf →
      awaitRelease (singleClosure i t1 t2) i rf t = some t2 := by
  intro rf
  induction rf with
  | zero => intro t _ _ h; exact absurd h (by omega)
  | succ rf ih =>
    intro t ht1 ht2 hf
    by_cases hc : t < t2
    · rw [awaitRelease_succ, if_pos (singleClosure_true i t1 t2 t ht1 hc)]
      exact ih (t + 1) (by omega) (by omega) (by omega)
    · have ht : t = t2 := by omega
      rw [ht, awaitRelease_succ,
        if_neg (by rw [singleClosure_false i t1 t2 t2 i (by omega)]; simp)]

/-- A pass started at the closure onset registers the held closure and
returns at its release time. -/
theorem scanPass_sc_hit (i t1 t2 rf : Nat) (hi : i < 4) (h20 : t1 + 20 < t2)
    (hrf : t2 - (t1 + 20) < rf) :
    ∀ rem, 4 - rem ≤ i →
      scanPass (singleClosure i t1 t2) rf rem t1 = ScanOut.found i t2 := by
  intro rem
  induction rem with
  | zero => intro h; exact absurd h (by omega)
  | succ rem ih =>
    intro hcur
    by_cases hc : 4 - (rem + 1) = i
    · rw [scanPass_succ, hc,
        if_pos (singleClosure_true i t1 t2 t1 (Nat.le_refl _) (by omega)),
        if_pos (singleClosure_true i t1 t2 (t1 + 20) (by omega) (by omega)),
        awaitRelease_sc i t1 t2 rf (t1 + 20) (by omega) (by omega) hrf]
    · rw [scanPass_succ,
        if_neg (by
          rw [singleClosure_false i t1 t2 t1 (4 - (rem + 1)) (by omega)]
          simp)]
      exact ih (by omega)

/-- A pass started at the onset of a closure shorter than the 20 ms
debounce window registers nothing and completes at the re-poll time. -/
theorem scanPass_sc_miss (i t1 t2 rf : Nat) (hi : i < 4) (h12 : t1 < t2)
    (h20 : t2 ≤ t1 + 20) :
    ∀ rem, 4 - rem ≤ i →
      scanPass (singleClosure i t1 t2) rf rem t1 = ScanOut.pass (t1 + 20) := by
  intro rem
  induction rem with
  | zero => intro h; exact absurd h (by omega)
  | succ rem ih =>
    intro hcur
    by_cases hc : 4 - (rem + 1) = i
    · rw [scanPass_succ, hc,
        if_pos (singleClosure_true i t1 t2 t1 (Nat.le_refl _) h12),
        if_neg (by
          rw [singleClosure_false i t1 t2 (t1 + 20) i (by omega)]
          simp)]
      exact scanPass_allFalse (singleClosure i t1 t2) rf (t1 + 20)
        (fun j hj => singleClosure_false i t1 t2 (t1 + 20) j (by omega)) rem
    · rw [scanPass_succ,
        if_neg (by
          rw [singleClosure_false i t1 t2 t1 (4 - (rem + 1)) (by omega)]
          simp)]
      exact ih (by omega)

/-- The blocking reader registers the held single closure once and returns
exactly at its release time. -/
theorem readDeb_sc_hit (i t0 t1 t2 rf : Nat) (hi : i < 4)
    (h20 : t1 + 20 < t2) (hrf : t2 - (t1 + 20) < rf) :
    ∀ fuel t, t0 ≤ t → t ≤ t1 → t1 - t < fuel →
      readButtonsDebounced (singleClosure i t1 t2) rf fuel t = some (i, t2) := by
  intro fuel
  induction fuel with
  | zero => intro t _ _ h; exact absurd h (by omega)
  | succ fuel ih =>
    intro t ht0 ht1 hfu
    by_cases hc : t < t1
    · rw [readDeb_succ, scanPass_allFalse (singleClosure i t1 t2) rf t
        (fun j hj => singleClosure_false i t1 t2 t j (by omega)) 4]
      show readButtonsDebounced (singleClosure i t1 t2) rf fuel (t + 1) = some (i, t2)
      exact ih (t + 1) (by omega) (by omega) (by omega)
    · have ht : t = t1 := by omega
      rw [ht, readDeb_succ, scanPass_sc_hit i t1 t2 rf hi h20 hrf 4 (by omega)]

/-- The blocking reader never registers a single closure shorter than the
20 ms debounce window. -/
theorem readDeb_sc_miss (i t1 t2 rf : Nat) (hi : i < 4) (h12 : t1 < t2)
    (h20 : t2 ≤ t1 + 20) :
    ∀ fuel t, t ≤ t1 →
      readButtonsDebounced (singleClosure i t1 t2) rf fuel t = none := by
  intro fuel
  induction fuel with
  | zero => intro t _; rfl
  | succ fuel ih =>
    intro t ht1
    by_cases hc : t < t1
    · rw [readDeb_succ, scanPass_allFalse (singleClosure i t1 t2) rf t
        (fun j hj => singleClosure_false i t1 t2 t j (by omega)) 4]
      show readButtonsDebounced (singleClosure i t1 t2) rf fuel (t + 1) = none
      exact ih (t + 1) (by omega)
    · have ht : t = t1 := by omega
      rw [ht, readDeb_succ, scanPass_sc_miss i t1 t2 rf hi h12 h20 4 (by omega)]
      show readButtonsDebounced (singleClosure i t1 t2) rf fuel (t1 + 20 + 1) = none
      apply readDeb_none
      intro u j hu hj
      exact singleClosure_false i t1 t2 u j (by omega)

/-- Unfolding equation of the countdown loop with no fuel. -/
theorem readCountdownLoop_zero (btn : Nat → Nat → Bool)
    (rf ct t0 t : Nat) : readCountdownLoop btn rf ct t0 0 t = none := rfl

/-- One-step unfolding equation of the countdown loop. -/
theorem readCountdownLoop_succ (btn : Nat → Nat → Bool)
    (rf ct t0 fuel t : Nat) :
    readCountdownLoop btn rf ct t0 (fuel + 1) t =
      if t - t0 < ct then
        match scanPass btn rf 4 t with
        | .found i tr => some (i, tr)
        | .stuck => none
        | .pass u => readCountdownLoop btn rf ct t0 fuel (u + 10)
      else some (255, t) := rfl

/-- With no press ever observed, the countdown loop reaches its deadline
and returns the 255 sentinel. -/
theorem readCountdown_timeout (btn : Nat → Nat → Bool) (rf ct t0 : Nat)
    (hf : ∀ u j, j < 4 → btn u j = false) :
    ∀ fuel t, t0 ≤ t → ct ≤ (t - t0) + 10 * fuel →
      ∃ tr, readCountdownLoop btn rf ct t0 (fuel + 1) t = some (255, tr) := by
  intro fuel
  induction fuel with
  | zero =>
    intro t ht hct
    rw [readCountdownLoop_succ, if_neg (by omega)]
    exact ⟨t, rfl⟩
  | succ fuel ih =>
    intro t ht hct
    by_cases hc : t - t0 < ct
    · rw [readCountdownLoop_succ, if_pos hc,
        scanPass_allFalse btn rf t (fun j hj => hf t j hj) 4]
      show ∃ tr, readCountdownLoop btn rf ct t0 (fuel + 1) (t + 10) = some (255, tr)
      exact ih (t + 10) (by omega) (by omega)
    · rw [readCountdownLoop_succ, if_neg hc]
      exact ⟨t, rfl⟩

/-- When some step k is the first failing step, the verification loop stops
exactly there. -/
theorem checkLoop_first_fail (mode : GameMode) (seq : Nat → Nat)
    (level : Nat) (inputs : Nat → Nat) (k : Nat)
    (hk : stepFails mode seq level inputs k = true) :
    ∀ rem i, i ≤ k → k < i + rem →
      (∀ j, i ≤ j → j < k → stepFails mode seq level inputs j = false) →
      checkLoop mode seq level inputs i rem = some k := by
  intro rem
  induction rem with
  | zero => intro i _ h _; exact absurd h (by omega)
  | succ rem ih =>
    intro i hik hkr hall
    rcases Nat.eq_or_lt_of_le hik with heq | hlt
    · subst heq
      exact checkLoop_succ_of_fails mode seq level inputs i rem hk
    · rw [checkLoop_succ_of_passes mode seq level inputs i rem
        (hall i (Nat.le_refl _) hlt)]
      exact ih (i + 1) (by omega) (by omega) (fun j hj1 hj2 => hall j (by omega) hj2)

/-- A halted process stays halted under any further steps. -/
theorem runAll_halted (g : GameOverResult) (st : Nat) :
    ∀ ms : List (Nat × (Nat → Nat)), runAll (LoopResult.halted g st) ms =
      LoopResult.halted g st := by
  intro ms
  induction ms with
  | nil => rfl
  | cons m ms ih => exact ih

/-- Claim C7: every press the blocking reader registers was observed closed
at an initial poll and at the 20 ms re-poll, and the reader returns only
once the contact reads open again; a single closure shorter than 20 ms
(open again at the re-poll) never registers; a single closure held through
the re-poll registers exactly once, the call returning at the release
time, and a fresh call from the release time on registers nothing more. -/
theorem c7_debounce :
    (∀ (btn : Nat → Nat → Bool) (rf fuel t0 i tr : Nat),
      readButtonsDebounced btn rf fuel t0 = some (i, tr) →
      ∃ t1, t0 ≤ t1 ∧ btn t1 i = true ∧ btn (t1 + 20) i = true ∧
        t1 + 20 ≤ tr ∧ btn tr i = false ∧
        ∀ u, t1 + 20 ≤ u → u < tr → btn u i = true) ∧
    (∀ (i t0 t1 t2 rf fuel : Nat), i < 4 → t0 ≤ t1 → t1 < t2 → t2 ≤ t1 + 20 →
      readButtonsDebounced (singleClosure i t1 t2) rf fuel t0 = none) ∧
    (∀ (i t0 t1 t2 rf fuel : Nat), i < 4 → t0 ≤ t1 → t1 + 20 < t2 →
      t1 - t0 < fuel → t2 - (t1 + 20) < rf →
      readButtonsDebounced (singleClosure i t1 t2) rf fuel t0 = some (i, t2) ∧
      ∀ rf2 f2, readButtonsDebounced (singleClosure i t1 t2) rf2 f2 t2 = none) := by
  refine ⟨?_, ?_, ?_⟩
  · intro btn rf fuel t0 i tr h
    exact (readDeb_found_spec btn rf fuel t0 i tr h).2
  · intro i t0 t1 t2 rf fuel hi h01 h12 h20
    exact readDeb_sc_miss i t1 t2 rf hi h12 h20 fuel t0 h01
  · intro i t0 t1 t2 rf fuel hi h01 h20 hfu hrf
    refine ⟨readDeb_sc_hit i t0 t1 t2 rf hi h20 hrf fuel t0 (Nat.le_refl _) h01 hfu, ?_⟩
    intro rf2 f2
    apply readDeb_none
    intro u j hu hj
    exact singleClosure_false i t1 t2 u j (by omega)

/-- Witness for C7: the 7 ms closure [3, 10) on button 2 never registers;
the closure [5, 40) held through the re-poll registers as (2, 40). -/
theorem c7_debounce_witness :
    ((2:Nat) < 4 ∧ (0:Nat) ≤ 3 ∧ (3:Nat) < 10 ∧ (10:Nat) ≤ 3 + 20 ∧
      readButtonsDebounced (singleClosure 2 3 10) 5 50 0 = none) ∧
    readButtonsDebounced (singleClosure 2 5 40) 16 6 0 = some (2, 40) :=
  ⟨⟨by decide, by decide, by decide, by decide,
      c7_debounce.2.1 2 0 3 10 5 50 (by decide) (by decide) (by decide) (by decide)⟩,
    (c7_debounce.2.2 2 0 5 40 16 6 (by decide) (by decide) (by decide)
      (by decide) (by decide)).1⟩

/-- Claim C10: the blocking reader only ever returns a button index in
0..3, never the 255 timeout sentinel; hence in the modes that use it
(every mode but Speed) a failing verification step is always an index
mismatch, never a timeout. -/
theorem c10_reader_range :
    (∀ (btn : Nat → Nat → Bool) (rf fuel t0 i tr : Nat),
      readButtonsDebounced btn rf fuel t0 = some (i, tr) → i < 4 ∧ i ≠ 255) ∧
    (∀ (s : GameState) (inputs : Nat → Nat),
      s.currentMode ≠ GameMode.SPEED → (∀ k, inputs k < 4) →
      (checkUserSequence s inputs).ok = false →
      ∃ i, i < s.Level ∧ inputs i ≠ 255 ∧
        inputs i ≠ expectedAt s.currentMode s.gameSequence s.Level i) := by
  constructor
  · intro btn rf fuel t0 i tr h
    have hi := (readDeb_found_spec btn rf fuel t0 i tr h).1
    exact ⟨hi, by omega⟩
  · intro s inputs _ hin hfail
    cases hc : checkLoop s.currentMode s.gameSequence s.Level inputs 0 s.Level with
    | none =>
      rw [checkUserSequence_eq_of_none s inputs hc] at hfail
      exact absurd hfail (by simp)
    | some j =>
      obtain ⟨-, hjr, hjf, -⟩ := checkLoop_eq_some_spec _ _ _ _ _ _ _ hc
      have h255 : inputs j ≠ 255 := by have := hin j; omega
      have hne : inputs j ≠ expectedAt s.currentMode s.gameSequence s.Level j := by
        simp [stepFails] at hjf
        rcases hjf with hjf | hjf
        · exact absurd hjf h255
        · exact fun h => hjf h.symm
      exact ⟨j, by omega, h255, hne⟩

/-- Witness for C10: the reader registers button 2 for the held closure
[5, 40), and the failing Classic attempt [1, 2, 2] against [1, 0, 2] fails
by mismatch. -/
theorem c10_reader_range_witness :
    ((2:Nat) < 4 ∧ (2:Nat) ≠ 255) ∧
      ∃ i, i < sClassic3.Level ∧ insWrong i ≠ 255 ∧
        insWrong i ≠ expectedAt sClassic3.currentMode sClassic3.gameSequence
          sClassic3.Level i :=
  ⟨c10_reader_range.1 (singleClosure 2 5 40) 16 6 0 2 40 (by decide),
    c10_reader_range.2 sClassic3 insWrong (by decide)
      (by
        intro k
        unfold insWrong
        rcases k with _ | _ | _ | n <;> simp [List.getD])
      (by decide)⟩

/-- Claim C6: in Speed mode, when no valid press occurs within the
countdown window the deadline-bounded reader returns the 255 sentinel; a
timeout at a step drives the verification exactly as a wrong answer at
that step does, failing the attempt and costing one life; and an iteration
of the main loop with lives remaining always continues (only lives == 0
reaches the terminal game-over path). -/
theorem c6_speed_timeout :
    (∀ (btn : Nat → Nat → Bool) (rf fuel t0 : Nat),
      (∀ t j, j < 4 → btn t j = false) → 300 < fuel →
      ∃ tr, readButtonsWithCountdown btn rf fuel t0 3000 = some (255, tr)) ∧
    (∀ (s : GameState) (inputs inputs2 : Nat → Nat) (k : Nat),
      s.currentMode = GameMode.SPEED → k < s.Level → inputs k = 255 →
      (∀ j, j < k → inputs2 j = inputs j) → inputs2 k ≠ 255 →
      inputs2 k ≠ expectedAt s.currentMode s.gameSequence s.Level k →
      checkUserSequence s inputs = checkUserSequence s inputs2 ∧
      ((∀ j, j < k →
          stepFails s.currentMode s.gameSequence s.Level inputs j = false) →
        (checkUserSequence s inputs).ok = false ∧
        (checkUserSequence s inputs).state.lives = decLives s.lives ∧
        (1 ≤ s.lives → s.lives ≤ 255 →
          (checkUserSequence s inputs).state.lives = s.lives - 1) ∧
        (checkUserSequence s inputs).readsUsed = k + 1)) ∧
    (∀ (sys : SysState) (r : Nat) (ins : Nat → Nat), sys.game.lives ≠ 0 →
      ∃ s2, loopStep sys r ins = LoopResult.next s2) := by
  refine ⟨?_, ?_, ?_⟩
  · intro btn rf fuel t0 hquiet hfuel
    have h300 : 3000 ≤ (t0 - t0) + 10 * (fuel - 1) := by omega
    obtain ⟨tr, htr⟩ := readCountdown_timeout btn rf 3000 t0
      (fun u j hj => hquiet u j hj) (fuel - 1) t0 (Nat.le_refl _) h300
    refine ⟨tr, ?_⟩
    unfold readButtonsWithCountdown
    have hfe : fuel - 1 + 1 = fuel := by omega
    rw [← hfe]
    exact htr
  · intro s inputs inputs2 k _ hk hk255 hag h2255 h2ne
    have hf1 : stepFails s.currentMode s.gameSequence s.Level inputs k = true := by
      simp [stepFails, hk255]
    have hf2 : stepFails s.currentMode s.gameSequence s.Level inputs2 k = true := by
      simp [stepFails]
      exact Or.inr (fun h => h2ne h.symm)
    constructor
    · have hcl := checkLoop_congr s.currentMode s.gameSequence s.Level
        inputs inputs2 k hag hf1 hf2 s.Level 0 (by omega)
      unfold checkUserSequence
      rw [hcl]
    · intro hpass
      have hsome : checkLoop s.currentMode s.gameSequence s.Level inputs 0 s.Level =
          some k :=
        checkLoop_first_fail s.currentMode s.gameSequence s.Level inputs k hf1
          s.Level 0 (by omega) (by omega) (fun j _ hj => hpass j hj)
      rw [checkUserSequence_eq_of_some s inputs k hsome]
      refine ⟨rfl, rfl, ?_, rfl⟩
      intro hl1 hl2
      show (s.lives + 255) % 256 = s.lives - 1
      omega
  · intro sys r ins h
    unfold loopStep
    rw [if_neg h]
    exact ⟨_, rfl⟩

/-- Witness for C6: with no press ever, the countdown reader at deadline
3000 ms returns the sentinel; in the Speed state with sequence [1, 0] the
timeout trace [1, 255] and the wrong-answer trace [1, 3] produce the same
result; and a loop iteration with 3 lives continues. -/
theorem c6_speed_timeout_witness :
    (∃ tr, readButtonsWithCountdown (fun _ _ => false) 0 301 0 3000 =
      some (255, tr)) ∧
    checkUserSequence sSpeed insTimeout = checkUserSequence sSpeed insWrong2 ∧
    ∃ s2, loopStep ⟨sClassic3, 0⟩ 2 insWrong = LoopResult.next s2 :=
  ⟨c6_speed_timeout.1 (fun _ _ => false) 0 301 0 (fun _ _ _ => rfl) (by decide),
    (c6_speed_timeout.2.1 sSpeed insTimeout insWrong2 1 rfl (by decide)
      (by decide) (by decide) (by decide) (by decide)).1,
    c6_speed_timeout.2.2 ⟨sClassic3, 0⟩ 2 insWrong (by decide)⟩

/-- Claim C8: with lives exhausted, an iteration of the main loop runs the
game-over handler, which displays the final score Level - 1, passes exactly
Level - 1 to the high-score update, then displays the byte the update left
in storage; afterwards the process is halted permanently, absorbing every
further input. -/
theorem c8_game_over (sys : SysState) (r : Nat) (ins : Nat → Nat)
    (h0 : sys.game.lives = 0) (h1 : 1 ≤ sys.game.Level)
    (h2 : sys.game.Level ≤ 255) :
    loopStep sys r ins =
      LoopResult.halted (showGameOver sys.game.Level sys.stored)
        (showGameOver sys.game.Level sys.stored).storedAfter ∧
    (showGameOver sys.game.Level sys.stored).displayedScore =
      (sys.game.Level : Int) - 1 ∧
    (showGameOver sys.game.Level sys.stored).storedAfter =
      (updateHighScore (sys.game.Level - 1) sys.stored).2 ∧
    (showGameOver sys.game.Level sys.stored).displayedHigh =
      (showGameOver sys.game.Level sys.stored).storedAfter ∧
    ∀ ms : List (Nat × (Nat → Nat)),
      runAll (LoopResult.halted (showGameOver sys.game.Level sys.stored)
        (showGameOver sys.game.Level sys.stored).storedAfter) ms =
      LoopResult.halted (showGameOver sys.game.Level sys.stored)
        (showGameOver sys.game.Level sys.stored).storedAfter := by
  refine ⟨?_, rfl, ?_, rfl, runAll_halted _ _⟩
  · unfold loopStep
    rw [if_pos h0]
  · show (updateHighScore ((((sys.game.Level : Int) - 1) % 256).toNat)
      sys.stored).2 = (updateHighScore (sys.game.Level - 1) sys.stored).2
    have hb : (((sys.game.Level : Int) - 1) % 256).toNat = sys.game.Level - 1 := by
      omega
    rw [hb]

/-- Witness for C8: the exhausted system at level 4 with unset high score
halts with displayed score 3 and stays halted. -/
theorem c8_game_over_witness :
    sysOver.game.lives = 0 ∧ 1 ≤ sysOver.game.Level ∧ sysOver.game.Level ≤ 255 ∧
      ((showGameOver sysOver.game.Level sysOver.stored).displayedScore =
        (sysOver.game.Level : Int) - 1 ∧
      (showGameOver sysOver.game.Level sysOver.stored).storedAfter =
        (updateHighScore (sysOver.game.Level - 1) sysOver.stored).2) :=
  ⟨by decide, by decide, by decide,
    (c8_game_over sysOver 0 (fun _ => 0) (by decide) (by decide) (by decide)).2.1,
    (c8_game_over sysOver 0 (fun _ => 0) (by decide) (by decide) (by decide)).2.2.1⟩

end SimonGame
